import Mathlib

/-!
Verification of the PassList password-list generator (src/main.py).

The Python program is shallowly embedded: lazy generators become Lean
lists, machine strings become `List Char`, the `random` module's draws
become explicitly injected values (`Nat` for `randint`, `Nat → ℚ` for the
stream of `random.random()` floats), and `itertools.islice` becomes an
explicit recursion that also counts how many elements it consumes from
the underlying generator.
-/

namespace PassList

set_option maxRecDepth 10000

/-- `string.ascii_lowercase` from Python's `string` module. -/
def ascii_lowercase : List Char := "abcdefghijklmnopqrstuvwxyz".toList

/-- `string.ascii_uppercase` from Python's `string` module. -/
def ascii_uppercase : List Char := "ABCDEFGHIJKLMNOPQRSTUVWXYZ".toList

/-- `string.digits` from Python's `string` module. -/
def digits : List Char := "0123456789".toList

/-- `string.punctuation` from Python's `string` module: the 32 ASCII
punctuation characters, in ascending code order (codes 33-47, 58-64,
91-96, 123-126). -/
def punctuation : List Char :=
  ((List.range 128).filter fun n =>
    (33 ≤ n && n ≤ 47) || (58 ≤ n && n ≤ 64) || (91 ≤ n && n ≤ 96) ||
      (123 ≤ n && n ≤ 126)).map Char.ofNat

/-- The `PasswordGenerator` class of `src/main.py` (its constructor
arguments).  `patterns = []` models Python `None`/empty (both falsy at
`if self.patterns:`), and `common_words = []` models an absent or empty
word list (falsy at `char == 'w' and self.common_words`). -/
structure PasswordGenerator where
  min_length : Nat
  max_length : Nat
  charset : List Char
  patterns : List (List Char)
  common_words : List (List Char)

/-- `itertools.product(xs₀, xs₁, …)`: the Cartesian product in the order
Python yields it — position 0 varies slowest, the right-most position
cycles fastest. -/
def cartProd {α : Type} : List (List α) → List (List α)
  | [] => [[]]
  | a :: rest => a.flatMap fun c => (cartProd rest).map fun t => c :: t

/-- Python `range(m, M + 1)` as a list (lengths are modelled as `Nat`,
matching the spec's `minLength ≥ 0`). -/
def lengthsList (m M : Nat) : List Nat := (List.range (M + 1 - m)).map fun k => m + k

/-- The per-token alphabet resolution of
`PasswordGenerator._generate_password_from_pattern` (src/main.py lines
41-53).  Each branch appends one "part" to the product; a part is a list
of strings (for the character classes, one-character strings; for the
word list, whole words).  Note the `'w'` branch is guarded by
`self.common_words` being truthy, otherwise control falls through to the
charset fallback. -/
def resolveToken (g : PasswordGenerator) (c : Char) : List (List Char) :=
  if c = 'l' then ascii_lowercase.map fun ch => [ch]
  else if c = 'u' then ascii_uppercase.map fun ch => [ch]
  else if c = 'd' then digits.map fun ch => [ch]
  else if c = 's' then punctuation.map fun ch => [ch]
  else if c = 'w' ∧ g.common_words ≠ [] then g.common_words
  else g.charset.map fun ch => [ch]

/-- `PasswordGenerator._generate_password_from_pattern` (src/main.py
lines 39-54): resolve every pattern character to a part, take the
Cartesian product, and `''.join` each tuple. -/
def generate_password_from_pattern (g : PasswordGenerator) (p : List Char) :
    List (List Char) :=
  (cartProd (p.map (resolveToken g))).map List.flatten

/-- `PasswordGenerator.generate_passwords` (src/main.py lines 31-37):
pattern mode when `self.patterns` is truthy, otherwise one
`itertools.product(charset, repeat=length)` per length in
`range(min_length, max_length + 1)`. -/
def generate_passwords (g : PasswordGenerator) : List (List Char) :=
  if g.patterns ≠ [] then g.patterns.flatMap (generate_password_from_pattern g)
  else (lengthsList g.min_length g.max_length).flatMap fun L =>
    cartProd (List.replicate L g.charset)

/-- `itertools.islice(it, start, stop)` over a list, instrumented with the
number of elements it pulls from the underlying iterator: every pull
decrements the remaining `stop` budget, and an element is kept once the
`start` prefix has been skipped. -/
def isliceRun {α : Type} : List α → Nat → Nat → List α × Nat
  | [], _, _ => ([], 0)
  | _ :: _, _, 0 => ([], 0)
  | x :: xs, 0, stop + 1 =>
      let r := isliceRun xs 0 stop
      (x :: r.1, r.2 + 1)
  | _ :: xs, start + 1, stop + 1 =>
      let r := isliceRun xs start stop
      (r.1, r.2 + 1)

/-- `generate_passwords_chunk` (src/main.py lines 68-71): the list
`islice(generator.generate_passwords(), chunk_number * chunk_size,
(chunk_number + 1) * chunk_size)` materialises. -/
def generate_passwords_chunk (g : PasswordGenerator) (chunk_size chunk_number : Nat) :
    List (List Char) :=
  (isliceRun (generate_passwords g) (chunk_number * chunk_size)
    ((chunk_number + 1) * chunk_size)).1

/-- The number of candidates `generate_passwords_chunk` consumes from the
fresh `generate_passwords()` iterator (the cost of the `islice`). -/
def generate_passwords_chunk_cost (g : PasswordGenerator) (chunk_size chunk_number : Nat) :
    Nat :=
  (isliceRun (generate_passwords g) (chunk_number * chunk_size)
    ((chunk_number + 1) * chunk_size)).2

/-- `estimate_total_passwords` (src/main.py lines 79-83): in pattern mode
the length of each materialised pattern expansion, summed; otherwise
`sum(len(charset) ** length for length in range(min, max + 1))`. -/
def estimate_total_passwords (g : PasswordGenerator) : Nat :=
  if g.patterns ≠ [] then
    (g.patterns.map fun p => (generate_password_from_pattern g p).length).sum
  else
    ((lengthsList g.min_length g.max_length).map fun L => g.charset.length ^ L).sum

/-- The charset assembly of `main` (src/main.py lines 110-120): the
selected classes concatenated in flag order, then the custom characters. -/
def buildCharset (l u d s : Bool) (custom : List Char) : List Char :=
  ((((if l then ascii_lowercase else []) ++ (if u then ascii_uppercase else [])) ++
    (if d then digits else [])) ++ (if s then punctuation else [])) ++ custom

/-- The generation path of `main` (src/main.py lines 110-176), without
the UX wrappers: validate (empty charset at line 122, `min > max` at
line 141, `total == 0` at line 150 — each prints an error and returns
before any candidate is produced), then emit the concatenation of all
chunks with `chunk_size = min(args.chunk_size, total)` and
`num_chunks = ceil(total / chunk_size)`.  `none` models an aborted run
with nothing written. -/
def mainRun (l u d s : Bool) (custom : List Char) (pats : List (List Char))
    (words : List (List Char)) (minL maxL chunkSize : Nat) :
    Option (List (List Char)) :=
  let charset := buildCharset l u d s custom
  if charset = [] then none
  else if maxL < minL then none
  else
    let g : PasswordGenerator := ⟨minL, maxL, charset, pats, words⟩
    let total := estimate_total_passwords g
    if total = 0 then none
    else
      let e := min chunkSize total
      let n := (total + e - 1) / e
      some ((List.range n).flatMap fun c => generate_passwords_chunk g e c)

/-- Python `str.capitalize`: first character title-cased (for ASCII,
uppercased) and — note — every remaining character lowercased. -/
def pyCapitalize (w : List Char) : List Char :=
  match w with
  | [] => []
  | c :: cs => c.toUpper :: cs.map Char.toLower

/-- The generator expression of mutation entry 7 (src/main.py line 64):
`''.join(c if random.random() > 0.3 else c.upper() for c in word)`, with
the stream of `random.random()` draws injected as `draws` and consumed
left to right starting at index `i`. -/
def bernoulliUpper (draws : Nat → ℚ) : Nat → List Char → List Char
  | _, [] => []
  | i, c :: cs =>
      (if 3/10 < draws i then c else c.toUpper) :: bernoulliUpper draws (i + 1) cs

/-- `PasswordGenerator.generate_smart_mutations` (src/main.py lines
56-66).  `r` is the injected result of `random.randint(0, 9999)` and
`draws` the injected stream of `random.random()` values used by the
seventh entry. -/
def generate_smart_mutations (word : List Char) (r : Nat) (draws : Nat → ℚ) :
    List (List Char) :=
  [ word,
    pyCapitalize word,
    word.map Char.toUpper,
    word.map Char.toLower,
    word.reverse,
    word ++ (Nat.repr r).toList,
    bernoulliUpper draws 0 word ]

/-- The comparison the spec's enumeration-order invariant describes for
one Cartesian product: `LexAt parts x y` holds when `x` precedes `y`
lexicographically, position by position, where position `k` is compared
by the index of the chosen element inside the resolved alphabet
`parts[k]`. -/
inductive LexAt {α : Type} [DecidableEq α] : List (List α) → List α → List α → Prop
  | head : ∀ {A : List α} {parts : List (List α)} {c d : α} {x y : List α},
      A.indexOf c < A.indexOf d → LexAt (A :: parts) (c :: x) (d :: y)
  | tail : ∀ {A : List α} {parts : List (List α)} {c : α} {x y : List α},
      LexAt parts x y → LexAt (A :: parts) (c :: x) (c :: y)

/-- The strict order the spec claims for length-range mode: ascending by
length, then lexicographic within a length by charset symbol order. -/
def rangeLt (cs : List Char) (x y : List Char) : Prop :=
  x.length < y.length ∨ (x.length = y.length ∧ LexAt (List.replicate x.length cs) x y)

/-- The spec's total-count formula, written from the spec's words (to be
compared with `estimate_total_passwords` and the enumeration's length):
in pattern mode, the sum over each pattern of the product of its
resolved per-token alphabet sizes; in length-range mode, the sum over
each length `L` in `[minLength, maxLength]` of `|charset| ^ L`. -/
def totalCount_specFormula (g : PasswordGenerator) : Nat :=
  if g.patterns ≠ [] then
    (g.patterns.map fun p => (p.map fun t => (resolveToken g t).length).prod).sum
  else
    ((lengthsList g.min_length g.max_length).map fun L => g.charset.length ^ L).sum

/-- The failure condition exactly as the spec's words state it: "no
charset is selected and no patterns are given, or minLength >
maxLength" (to be compared with the condition the code actually
checks). -/
def invalidSpec_claimCondition (charset : List Char) (pats : List (List Char))
    (minL maxL : Nat) : Prop :=
  (charset = [] ∧ pats = []) ∨ maxL < minL

/-- Mutation entry 2 as the spec's words describe it: only position 0 is
forced to uppercase, every other character keeps its original case (to
be compared with the code's Python `str.capitalize`). -/
def capitalize_claimWords (w : List Char) : List Char :=
  match w with
  | [] => []
  | c :: cs => c.toUpper :: cs

/-- Mutation entry 7 as the spec's words describe it: each character is
uppercased exactly when its uniform draw falls in the probability-0.7
branch (in the code's branching, the `> 0.3` case), and left unchanged
otherwise (to be compared with the code's entry 7). -/
def bernoulli_claimWords (draws : Nat → ℚ) : Nat → List Char → List Char
  | _, [] => []
  | i, c :: cs =>
      (if 3/10 < draws i then c.toUpper else c) :: bernoulli_claimWords draws (i + 1) cs

/-- A small concrete generator — charset "ab", length range 1-2, no
patterns, no word list — used to instantiate hypotheses in witnesses. -/
def gAB12 : PasswordGenerator := ⟨1, 2, ['a', 'b'], [], []⟩

/-- A concrete generator carrying the single pattern "ld" (with the CLI's
default length bounds 8-12, which pattern mode ignores). -/
def gDefaultLD : PasswordGenerator := ⟨8, 12, ascii_lowercase, [['l', 'd']], []⟩

theorem nodup_pairwise_indexOf {α : Type} [DecidableEq α] :
    ∀ (a : List α), a.Nodup → a.Pairwise fun c d => a.indexOf c < a.indexOf d := by
  intro a h
  induction a with
  | nil => exact List.Pairwise.nil
  | cons x xs ih =>
    rcases List.pairwise_cons.mp h with ⟨hx, hxs⟩
    refine List.pairwise_cons.mpr ⟨?_, ?_⟩
    · intro d hd
      rw [List.indexOf_cons_self, List.indexOf_cons_ne _ (hx d hd)]
      exact Nat.succ_pos _
    · refine (ih hxs).imp_of_mem ?_
      intro c d hc hd hlt
      rw [List.indexOf_cons_ne _ (hx c hc), List.indexOf_cons_ne _ (hx d hd)]
      exact Nat.succ_lt_succ hlt

theorem mem_cartProd_length {α : Type} :
    ∀ (parts : List (List α)) (w : List α), w ∈ cartProd parts → w.length = parts.length := by
  intro parts
  induction parts with
  | nil =>
    intro w hw
    simp only [cartProd, List.mem_singleton] at hw
    simp [hw]
  | cons a rest ih =>
    intro w hw
    simp only [cartProd, List.mem_flatMap, List.mem_map] at hw
    rcases hw with ⟨c, _, t, ht, rfl⟩
    simp [ih t ht]

theorem cartProd_length {α : Type} :
    ∀ (parts : List (List α)), (cartProd parts).length = (parts.map List.length).prod := by
  intro parts
  induction parts with
  | nil => rfl
  | cons a rest ih =>
    simp only [cartProd, List.length_flatMap, List.map_map, List.map_cons, List.prod_cons]
    have : (fun c => ((cartProd rest).map fun t => c :: t).length) =
        fun _ : α => (cartProd rest).length := by
      funext c
      simp
    rw [Function.comp_def]
    simp only [List.length_map]
    rw [List.map_const', List.sum_replicate, ih, smul_eq_mul]

theorem cartProd_pairwise {α : Type} [DecidableEq α] :
    ∀ (parts : List (List α)), (∀ a ∈ parts, a.Nodup) →
      (cartProd parts).Pairwise (LexAt parts) := by
  intro parts
  induction parts with
  | nil =>
    intro _
    exact List.pairwise_singleton _ _
  | cons a rest ih =>
    intro hnd
    have ha : a.Nodup := hnd a (List.mem_cons_self a rest)
    have hrest : ∀ b ∈ rest, b.Nodup := fun b hb => hnd b (List.mem_cons_of_mem a hb)
    simp only [cartProd]
    rw [List.pairwise_flatMap]
    constructor
    · intro c _
      rw [List.pairwise_map]
      exact (ih hrest).imp fun h => LexAt.tail h
    · refine (nodup_pairwise_indexOf a ha).imp ?_
      intro c d hlt x hx y hy
      rcases List.mem_map.mp hx with ⟨t, _, rfl⟩
      rcases List.mem_map.mp hy with ⟨t', _, rfl⟩
      exact LexAt.head hlt

theorem generate_password_from_pattern_length (g : PasswordGenerator) (p : List Char) :
    (generate_password_from_pattern g p).length =
      (p.map fun t => (resolveToken g t).length).prod := by
  unfold generate_password_from_pattern
  rw [List.length_map, cartProd_length, List.map_map]
  rfl

theorem isliceRun_fst {α : Type} :
    ∀ (l : List α) (a b : Nat), (isliceRun l a b).1 = (l.take b).drop a := by
  intro l
  induction l with
  | nil =>
    intro a b
    cases b <;> simp [isliceRun]
  | cons x xs ih =>
    intro a b
    cases b with
    | zero => simp [isliceRun]
    | succ b' =>
      cases a with
      | zero => simp [isliceRun, ih]
      | succ a' => simp [isliceRun, ih]

theorem isliceRun_snd {α : Type} :
    ∀ (l : List α) (a b : Nat), (isliceRun l a b).2 = min b l.length := by
  intro l
  induction l with
  | nil =>
    intro a b
    cases b <;> simp [isliceRun]
  | cons x xs ih =>
    intro a b
    cases b with
    | zero => simp [isliceRun]
    | succ b' =>
      cases a with
      | zero =>
        simp only [isliceRun, ih, List.length_cons]
        omega
      | succ a' =>
        simp only [isliceRun, ih, List.length_cons]
        omega

theorem generate_passwords_chunk_eq (g : PasswordGenerator) (size num : Nat) :
    generate_passwords_chunk g size num =
      ((generate_passwords g).take ((num + 1) * size)).drop (num * size) :=
  isliceRun_fst _ _ _

theorem generate_passwords_chunk_cost_eq (g : PasswordGenerator) (size num : Nat) :
    generate_passwords_chunk_cost g size num =
      min ((num + 1) * size) (generate_passwords g).length :=
  isliceRun_snd _ _ _

theorem chunks_cover {α : Type} (e : Nat) (he : 0 < e) :
    ∀ (n : Nat) (l : List α), l.length ≤ n →
      (List.range ((l.length + e - 1) / e)).flatMap
        (fun c => (l.take ((c + 1) * e)).drop (c * e)) = l := by
  intro n
  induction n with
  | zero =>
    intro l hl
    have h0 : l = [] := List.eq_nil_of_length_eq_zero (Nat.le_zero.mp hl)
    subst h0
    simp [Nat.div_eq_of_lt (Nat.sub_lt he Nat.one_pos)]
  | succ n ih =>
    intro l hl
    rcases Nat.eq_zero_or_pos l.length with h0 | hpos
    · have hnil : l = [] := List.eq_nil_of_length_eq_zero h0
      subst hnil
      simp [Nat.div_eq_of_lt (Nat.sub_lt he Nat.one_pos)]
    · by_cases hle : l.length ≤ e
      · have hnum : (l.length + e - 1) / e = 1 := by
          have h1 : l.length + e - 1 = (l.length - 1) + e := by omega
          rw [h1, Nat.add_div_right _ he, Nat.div_eq_of_lt (by omega)]
        rw [hnum]
        have hr1 : List.range 1 = [0] := rfl
        rw [hr1, List.flatMap_cons]
        simp only [List.flatMap_nil, List.append_nil, Nat.zero_mul, List.drop_zero,
          Nat.zero_add, Nat.one_mul]
        exact List.take_of_length_le hle
      · push_neg at hle
        have hnume : l.length + e - 1 = ((l.length - e) + e - 1) + e := by omega
        have hnum : (l.length + e - 1) / e = ((l.length - e) + e - 1) / e + 1 := by
          rw [hnume, Nat.add_div_right _ he]
        have ihd := ih (l.drop e) (by rw [List.length_drop]; omega)
        rw [List.length_drop] at ihd
        have hfun : ∀ c : Nat, ((l.drop e).take ((c + 1) * e)).drop (c * e)
            = (l.take ((c + 1 + 1) * e)).drop ((c + 1) * e) := by
          intro c
          rw [List.take_drop, List.drop_drop]
          have h1 : e + (c + 1) * e = (c + 1 + 1) * e := by ring
          have h2 : e + c * e = (c + 1) * e := by ring
          rw [h1, h2]
        rw [hnum, List.range_succ_eq_map, List.flatMap_cons]
        have hmap : ((List.range (((l.length - e) + e - 1) / e)).map Nat.succ).flatMap
            (fun c => (l.take ((c + 1) * e)).drop (c * e)) = l.drop e := by
          rw [List.flatMap_map, ← ihd]
          exact List.flatMap_congr fun c _ => (hfun c).symm
        rw [hmap]
        simp

theorem estimate_eq_length (g : PasswordGenerator) :
    estimate_total_passwords g = (generate_passwords g).length := by
  unfold estimate_total_passwords generate_passwords
  rcases eq_or_ne g.patterns [] with h | h
  · rw [if_neg (fun hc => hc h), if_neg (fun hc => hc h)]
    have hlen : ∀ L : Nat,
        (cartProd (List.replicate L g.charset)).length = g.charset.length ^ L := by
      intro L
      rw [cartProd_length, List.map_replicate, List.prod_replicate]
    simp [List.flatMap, List.map_map, Function.comp_def, hlen]
  · rw [if_pos h, if_pos h]
    simp [List.flatMap, List.map_map, Function.comp_def]

theorem resolveToken_ne_nil (g : PasswordGenerator) (hcs : g.charset ≠ []) (c : Char) :
    resolveToken g c ≠ [] := by
  unfold resolveToken
  split_ifs with h1 h2 h3 h4 h5
  · simp [ascii_lowercase]
  · simp [ascii_uppercase]
  · simp [digits]
  · decide
  · exact h5.2
  · simpa using hcs

theorem estimate_pos (g : PasswordGenerator) (hcs : g.charset ≠ [])
    (hmm : g.min_length ≤ g.max_length) : 0 < estimate_total_passwords g := by
  unfold estimate_total_passwords
  rcases eq_or_ne g.patterns [] with h | h
  · rw [if_neg (fun hc => hc h)]
    refine List.sum_pos _ ?_ ?_
    · intro x hx
      rcases List.mem_map.mp hx with ⟨L, _, rfl⟩
      exact Nat.pos_pow_of_pos L (List.length_pos.mpr hcs)
    · have : lengthsList g.min_length g.max_length ≠ [] := by
        unfold lengthsList
        simp only [ne_eq, List.map_eq_nil_iff, List.range_eq_nil]
        omega
      simpa using this
  · rw [if_pos h]
    refine List.sum_pos _ ?_ ?_
    · intro x hx
      rcases List.mem_map.mp hx with ⟨p, _, rfl⟩
      rw [generate_password_from_pattern_length]
      refine List.prod_pos ?_
      intro a ha
      rcases List.mem_map.mp ha with ⟨t, _, rfl⟩
      exact List.length_pos.mpr (resolveToken_ne_nil g hcs t)
    · simpa using h

theorem generate_passwords_pairwise_range (g : PasswordGenerator)
    (hp : g.patterns = []) (hnd : g.charset.Nodup) :
    (generate_passwords g).Pairwise (rangeLt g.charset) := by
  unfold generate_passwords
  rw [if_neg (fun hc => hc hp), List.pairwise_flatMap]
  constructor
  · intro L _
    have hall : ∀ a ∈ List.replicate L g.charset, a.Nodup := by
      intro a ha
      rw [List.eq_of_mem_replicate ha]
      exact hnd
    refine (cartProd_pairwise _ hall).imp_of_mem ?_
    intro x y hx hy hxy
    have hxl : x.length = L := by
      rw [mem_cartProd_length _ x hx, List.length_replicate]
    have hyl : y.length = L := by
      rw [mem_cartProd_length _ y hy, List.length_replicate]
    refine Or.inr ⟨hxl.trans hyl.symm, ?_⟩
    rw [hxl]
    exact hxy
  · have hpl : (lengthsList g.min_length g.max_length).Pairwise (· < ·) := by
      unfold lengthsList
      rw [List.pairwise_map]
      exact (List.pairwise_lt_range _).imp fun h => Nat.add_lt_add_left h _
    refine hpl.imp_of_mem ?_
    intro L1 L2 _ _ hlt x hx y hy
    have hxl : x.length = L1 := by
      rw [mem_cartProd_length _ x hx, List.length_replicate]
    have hyl : y.length = L2 := by
      rw [mem_cartProd_length _ y hy, List.length_replicate]
    exact Or.inl (by rw [hxl, hyl]; exact hlt)

theorem bernoulliUpper_getElem? (draws : Nat → ℚ) :
    ∀ (w : List Char) (k i : Nat),
      (bernoulliUpper draws k w)[i]? =
        w[i]?.map fun c => if draws (k + i) ≤ 3/10 then c.toUpper else c := by
  intro w
  induction w with
  | nil =>
    intro k i
    simp [bernoulliUpper]
  | cons c cs ih =>
    intro k i
    cases i with
    | zero =>
      simp only [bernoulliUpper, List.getElem?_cons_zero, Option.map_some', Nat.add_zero]
      rcases le_or_lt (draws k) (3/10) with h | h
      · rw [if_neg (not_lt.mpr h), if_pos h]
      · rw [if_pos h, if_neg (not_le.mpr h)]
    | succ j =>
      simp only [bernoulliUpper, List.getElem?_cons_succ]
      rw [ih (k + 1) j]
      have harith : k + 1 + j = k + (j + 1) := by omega
      rw [harith]

/-- Claim C1: for every generation spec, the total candidate count (the
length of the enumeration) equals, in length-range mode, the sum over
each length `L` in `[minLength, maxLength]` of `|charset| ^ L` and, in
pattern mode, the sum over each pattern of the product of its resolved
per-token alphabet sizes; and `estimate_total_passwords` returns exactly
this value. -/
theorem claim1_total_count (g : PasswordGenerator) :
    (generate_passwords g).length = totalCount_specFormula g
    ∧ estimate_total_passwords g = totalCount_specFormula g := by
  have h2 : estimate_total_passwords g = totalCount_specFormula g := by
    unfold estimate_total_passwords totalCount_specFormula
    rcases eq_or_ne g.patterns [] with h | h
    · rw [if_neg (fun hc => hc h), if_neg (fun hc => hc h)]
    · rw [if_pos h, if_pos h]
      congr 1
      refine List.map_congr_left ?_
      intro p _
      exact generate_password_from_pattern_length g p
  exact ⟨(estimate_eq_length g).symm.trans h2, h2⟩

/-- Claim C7: for every word (and any injected randomness),
`generate_smart_mutations` returns exactly 7 entries in a fixed order;
entries 1-5 are pure and deterministic (independent of the injected
randomness), with entry 1 the word unchanged, entry 3 the word fully
uppercased, entry 4 the word fully lowercased, entry 5 the word
reversed; and the first five entries for "Test" are
["Test", "Test", "TEST", "test", "tseT"]. -/
theorem claim7_mutations (w : List Char) (r : Nat) (draws : Nat → ℚ) :
    (generate_smart_mutations w r draws).length = 7
    ∧ (generate_smart_mutations w r draws).take 5 =
        (generate_smart_mutations w 0 fun _ => 0).take 5
    ∧ (generate_smart_mutations w r draws)[0]? = some w
    ∧ (generate_smart_mutations w r draws)[2]? = some (w.map Char.toUpper)
    ∧ (generate_smart_mutations w r draws)[3]? = some (w.map Char.toLower)
    ∧ (generate_smart_mutations w r draws)[4]? = some w.reverse
    ∧ (generate_smart_mutations ['T', 'e', 's', 't'] r draws).take 5 =
        [['T', 'e', 's', 't'], ['T', 'e', 's', 't'], ['T', 'E', 'S', 'T'],
         ['t', 'e', 's', 't'], ['t', 's', 'e', 'T']] :=
  ⟨rfl, rfl, rfl, rfl, rfl, rfl, rfl⟩

/-- Claim C8 (counterexample): on the word "aB" the code's mutation
entry 2 is "Ab" — Python's `str.capitalize` lowercases every character
after the first — whereas the claim's "only position 0 forced, others
untouched" rule demands "AB". -/
theorem claim8_counterexample :
    (generate_smart_mutations ['a', 'B'] 0 fun _ => 0)[1]? = some ['A', 'b']
    ∧ capitalize_claimWords ['a', 'B'] = ['A', 'B']
    ∧ ¬ (generate_smart_mutations ['a', 'B'] 0 fun _ => 0)[1]? =
        some (capitalize_claimWords ['a', 'B']) := by
  refine ⟨rfl, rfl, ?_⟩
  decide

/-- Claim C8 (amended): for every word, mutation entry 2 equals the word
with its first character uppercased and every remaining character
lowercased (Python `str.capitalize` semantics). -/
theorem claim8_capitalize (w : List Char) (r : Nat) (draws : Nat → ℚ) :
    (generate_smart_mutations w r draws)[1]? =
      some ((w.take 1).map Char.toUpper ++ (w.drop 1).map Char.toLower) := by
  cases w with
  | nil => rfl
  | cons c cs => rfl

/-- Claim C9 (counterexample): with the per-character draw 1/2 — which
falls in the probability-0.7 branch (`> 0.3`) — the code leaves the
character unchanged, whereas the claim says precisely that branch
uppercases it: the code uppercases with probability 0.3, not 0.7. -/
theorem claim9_counterexample :
    (generate_smart_mutations ['a'] 0 fun _ => 1/2).getD 6 [] = ['a']
    ∧ bernoulli_claimWords (fun _ => 1/2) 0 ['a'] = ['A']
    ∧ ¬ (generate_smart_mutations ['a'] 0 fun _ => 1/2).getD 6 [] =
        bernoulli_claimWords (fun _ => 1/2) 0 ['a'] := by
  have hlt : (3 : ℚ) / 10 < 1 / 2 := by norm_num
  have e1 : (generate_smart_mutations ['a'] 0 fun _ => 1/2).getD 6 [] = ['a'] := by
    rw [show (generate_smart_mutations ['a'] 0 fun _ => 1/2).getD 6 [] =
        [if (3 : ℚ)/10 < 1/2 then 'a' else 'a'.toUpper] from rfl, if_pos hlt]
  have e2 : bernoulli_claimWords (fun _ => 1/2) 0 ['a'] = ['A'] := by
    rw [show bernoulli_claimWords (fun _ => 1/2) 0 ['a'] =
        [if (3 : ℚ)/10 < 1/2 then 'a'.toUpper else 'a'] from rfl, if_pos hlt]
    decide
  refine ⟨e1, e2, ?_⟩
  rw [e1, e2]
  decide

/-- Claim C9 (amended): mutation entry 7 performs an independent
Bernoulli trial per character, uppercasing a character exactly when its
uniform draw is at most 0.3 (probability ≈ 0.3) and leaving it unchanged
when the draw exceeds 0.3 (probability ≈ 0.7) — the opposite assignment
of branch probabilities to the one the claim states. -/
theorem claim9_bernoulli (w : List Char) (r : Nat) (draws : Nat → ℚ) (i : Nat) :
    ((generate_smart_mutations w r draws).getD 6 [])[i]? =
      w[i]?.map fun c => if draws i ≤ 3/10 then c.toUpper else c := by
  have h : (generate_smart_mutations w r draws).getD 6 [] = bernoulliUpper draws 0 w := rfl
  rw [h, bernoulliUpper_getElem? draws w 0 i]
  simp

/-- Claim C10: the empty pattern expands to exactly one candidate — the
empty string (the Cartesian product over zero positions) — and
contributes exactly 1 to the total count wherever it occurs in the
pattern list. -/
theorem claim10_empty_pattern (m M : Nat) (cs : List Char) (ws : List (List Char))
    (ps1 ps2 : List (List Char)) :
    generate_password_from_pattern ⟨m, M, cs, ps1 ++ [] :: ps2, ws⟩ [] =
      [([] : List Char)]
    ∧ estimate_total_passwords ⟨m, M, cs, ps1 ++ [] :: ps2, ws⟩ =
        (ps1.map fun p =>
          (generate_password_from_pattern ⟨m, M, cs, ps1 ++ [] :: ps2, ws⟩ p).length).sum
        + 1 +
        (ps2.map fun p =>
          (generate_password_from_pattern ⟨m, M, cs, ps1 ++ [] :: ps2, ws⟩ p).length).sum := by
  constructor
  · rfl
  · unfold estimate_total_passwords
    rw [if_pos (by simp)]
    rw [List.map_append, List.sum_append, List.map_cons, List.sum_cons]
    have h1 : (generate_password_from_pattern ⟨m, M, cs, ps1 ++ [] :: ps2, ws⟩ []).length
        = 1 := rfl
    rw [h1]
    omega

/-- Claim C2: the sequence produced by `generate_passwords` is strictly
increasing under the spec's order — in length-range mode ascending by
length, then lexicographic within a length by charset symbol order with
the right-most position cycling fastest; in pattern mode the patterns in
supplied order, each expanded as the Cartesian product of its resolved
per-position alphabets in lexicographic per-position-alphabet order —
and pattern "ld" with the default charsets yields exactly 260
candidates, first "a0", last "z9".  (The per-alphabet `Nodup`
hypotheses express the spec's "set of symbols" data model.) -/
theorem claim2_enumeration_order (g : PasswordGenerator)
    (hnd : g.charset.Nodup)
    (hpat : ∀ p ∈ g.patterns, ∀ t ∈ p, (resolveToken g t).Nodup) :
    (g.patterns = [] → (generate_passwords g).Pairwise (rangeLt g.charset))
    ∧ (g.patterns ≠ [] →
        generate_passwords g = g.patterns.flatMap (generate_password_from_pattern g)
        ∧ ∀ p ∈ g.patterns,
            generate_password_from_pattern g p =
              (cartProd (p.map (resolveToken g))).map List.flatten
            ∧ (cartProd (p.map (resolveToken g))).Pairwise
                (LexAt (p.map (resolveToken g))))
    ∧ (generate_password_from_pattern gDefaultLD ['l', 'd']).length = 260
    ∧ (generate_password_from_pattern gDefaultLD ['l', 'd']).head? = some ['a', '0']
    ∧ (generate_password_from_pattern gDefaultLD ['l', 'd']).getLast? = some ['z', '9'] := by
  refine ⟨fun hp => generate_passwords_pairwise_range g hp hnd, fun hp => ⟨?_, ?_⟩,
    ?_, ?_, ?_⟩
  · unfold generate_passwords
    rw [if_pos hp]
  · intro p hpmem
    refine ⟨rfl, cartProd_pairwise _ ?_⟩
    intro a ha
    rcases List.mem_map.mp ha with ⟨t, ht, rfl⟩
    exact hpat p hpmem t ht
  · decide
  · decide
  · decide

/-- Closed instantiation of `claim2_enumeration_order` at the concrete
generator `gAB12` (charset "ab", lengths 1-2, no patterns), discharging
its `Nodup` hypotheses. -/
theorem claim2_order_witness :
    (generate_passwords gAB12).Pairwise (rangeLt gAB12.charset) :=
  (claim2_enumeration_order gAB12 (by decide) (by simp [gAB12])).1 rfl

/-- Claim C3: for a positive total and positive configured chunk size,
with `e = min(chunkSize, total)` and `n = ceil(total / e)`, chunk `c`
contains exactly the candidates at global indices
`[c*e, min((c+1)*e, total))` of the enumeration, and concatenating all
`n` chunks in chunk order reconstructs the whole enumeration — every
index exactly once, no overlap, no gap. -/
theorem claim3_chunk_partition (g : PasswordGenerator) (chunkSize e n total : Nat)
    (htot : total = estimate_total_passwords g) (htotal : 0 < total)
    (hcz : 0 < chunkSize) (he : e = min chunkSize total)
    (hn : n = (total + e - 1) / e) :
    (∀ c j : Nat, (generate_passwords_chunk g e c)[j]? =
        if c * e + j < min ((c + 1) * e) total
        then (generate_passwords g)[c * e + j]? else none)
    ∧ (List.range n).flatMap (fun c => generate_passwords_chunk g e c) =
        generate_passwords g := by
  have hlen : (generate_passwords g).length = total := by
    rw [htot, estimate_eq_length]
  have hepos : 0 < e := by
    rw [he]
    exact lt_min hcz htotal
  constructor
  · intro c j
    rw [generate_passwords_chunk_eq, List.getElem?_drop]
    by_cases h : c * e + j < min ((c + 1) * e) total
    · rw [if_pos h, List.getElem?_take_of_lt (lt_min_iff.mp h).1]
    · rw [if_neg h]
      rcases Nat.lt_or_ge (c * e + j) ((c + 1) * e) with h1 | h1
      · rw [List.getElem?_take_of_lt h1]
        apply List.getElem?_eq_none
        rw [hlen]
        omega
      · apply List.getElem?_eq_none
        rw [List.length_take]
        omega
  · have hcover := chunks_cover e hepos (generate_passwords g).length
      (generate_passwords g) le_rfl
    rw [hlen] at hcover
    rw [← hn] at hcover
    rw [← hcover]
    refine List.flatMap_congr ?_
    intro c _
    exact generate_passwords_chunk_eq g e c

/-- Closed instantiation of `claim3_chunk_partition` at `gAB12` with
configured chunk size 4: total 6, effective chunk size 4, 2 chunks. -/
theorem claim3_chunk_partition_witness :
    (List.range 2).flatMap (fun c => generate_passwords_chunk gAB12 4 c) =
      generate_passwords gAB12 :=
  (claim3_chunk_partition gAB12 4 4 2 6 (by decide) (by decide) (by decide)
    (by decide) (by decide)).2

/-- Claim C4 (counterexample): obtaining the candidate at index `i`
through the code's chunk computation is not O(candidate length): no
constant `K` bounds the number of candidates the `islice` consumes by
`K * (length + 1)`, because the code iterates the generator from index
zero (for a one-length charset of size `2K + 1`, fetching index `2K`
with chunk size 1 consumes `2K + 1 > 2K` candidates). -/
theorem claim4_counterexample :
    ¬ ∃ K : Nat, ∀ (g : PasswordGenerator) (i : Nat),
        i < (generate_passwords g).length →
        generate_passwords_chunk_cost g 1 i ≤
          K * (((generate_passwords g).getD i []).length + 1) := by
  rintro ⟨K, hK⟩
  have hpat : (PasswordGenerator.mk 1 1 (List.replicate (2 * K + 1) 'a') [] []).patterns
      = [] := rfl
  set g : PasswordGenerator := ⟨1, 1, List.replicate (2 * K + 1) 'a', [], []⟩ with hg
  have hlen : (generate_passwords g).length = 2 * K + 1 := by
    rw [← estimate_eq_length]
    unfold estimate_total_passwords
    rw [if_neg (fun hc => hc hpat)]
    show ((lengthsList 1 1).map fun L => (List.replicate (2 * K + 1) 'a').length ^ L).sum
        = 2 * K + 1
    rw [show lengthsList 1 1 = [1] from rfl]
    simp
  have hall : ∀ w ∈ generate_passwords g, w.length = 1 := by
    intro w hw
    unfold generate_passwords at hw
    rw [if_neg (fun hc => hc hpat)] at hw
    rcases List.mem_flatMap.mp hw with ⟨L, hL, hwL⟩
    have hL1 : L = 1 := by
      have hmem := hL
      simp [lengthsList] at hmem
      omega
    subst hL1
    rw [mem_cartProd_length _ w hwL, List.length_replicate]
  have hcost : generate_passwords_chunk_cost g 1 (2 * K) = 2 * K + 1 := by
    rw [generate_passwords_chunk_cost_eq, hlen]
    omega
  have hgetd : ((generate_passwords g).getD (2 * K) []).length = 1 := by
    refine hall _ ?_
    have hlt : 2 * K < (generate_passwords g).length := by omega
    rw [List.getD_eq_getElem?_getD, List.getElem?_eq_getElem hlt]
    exact List.getElem_mem hlt
  have := hK g (2 * K) (by omega)
  rw [hcost, hgetd] at this
  omega

/-- Claim C4 (amended): chunk computation works by iterating the
enumeration from index zero: chunk `c` is the `islice` slice
`[c*chunkSize, (c+1)*chunkSize)` of a fresh `generate_passwords()`
iterator, and computing it consumes `min((c+1)*chunkSize, total)`
candidates from that iterator — work linear in the chunk's end index,
not O(candidate length) mixed-radix decomposition. -/
theorem claim4_islice_cost (g : PasswordGenerator) (size num : Nat) :
    generate_passwords_chunk g size num =
      ((generate_passwords g).take ((num + 1) * size)).drop (num * size)
    ∧ generate_passwords_chunk_cost g size num =
        min ((num + 1) * size) (generate_passwords g).length :=
  ⟨generate_passwords_chunk_eq g size num, generate_passwords_chunk_cost_eq g size num⟩

/-- Claim C5 (counterexample): with no charset flags but a pattern list
`["d"]` supplied (and a valid length range), the claim's failure
condition does not hold — patterns are given — yet the code's `main`
aborts at its `if not charset` check before looking at patterns. -/
theorem claim5_counterexample :
    mainRun false false false false [] [['d']] [] 1 2 1000000 = none
    ∧ ¬ invalidSpec_claimCondition (buildCharset false false false false [])
        [['d']] 1 2 := by
  constructor
  · rfl
  · intro h
    rcases h with ⟨_, h2⟩ | h3
    · cases h2
    · omega

/-- Claim C5 (amended): the run fails before any enumeration begins —
producing no candidates — if and only if no charset is selected (no
class flag and no custom characters, regardless of whether patterns are
given) or minLength > maxLength. -/
theorem claim5_validation (l u d s : Bool) (custom : List Char)
    (pats : List (List Char)) (words : List (List Char))
    (minL maxL chunkSize : Nat) (hcz : 0 < chunkSize) :
    mainRun l u d s custom pats words minL maxL chunkSize = none ↔
      (buildCharset l u d s custom = [] ∨ maxL < minL) := by
  unfold mainRun
  by_cases h1 : buildCharset l u d s custom = []
  · simp [h1]
  · rw [if_neg h1]
    by_cases h2 : maxL < minL
    · simp [h2]
    · rw [if_neg h2]
      have hpos : 0 < estimate_total_passwords
          ⟨minL, maxL, buildCharset l u d s custom, pats, words⟩ :=
        estimate_pos _ h1 (show minL ≤ maxL by omega)
      rw [if_neg (by omega)]
      simp [h1, h2]

/-- Closed instantiation of `claim5_validation`: with lowercase selected
and a valid length range the run does not abort, and with
minLength 3 > maxLength 2 it does. -/
theorem claim5_validation_witness :
    (mainRun true false false false [] [] [] 1 1 1000000 = none ↔
      (buildCharset true false false false [] = [] ∨ 1 < 1))
    ∧ (mainRun false false false false ['x'] [] [] 3 2 1000000 = none ↔
      (buildCharset false false false false ['x'] = [] ∨ 2 < 3)) :=
  ⟨claim5_validation true false false false [] [] [] 1 1 1000000 (by decide),
   claim5_validation false false false false ['x'] [] [] 3 2 1000000 (by decide)⟩

/-- Claim C6 (counterexample): with pattern "w" and no word list the code
does not fail — it silently resolves the `w` token to the charset and
produces candidates: with charset "ab" the run succeeds and emits
exactly "a" and "b". -/
theorem claim6_counterexample :
    resolveToken ⟨1, 1, ['a', 'b'], [['w']], []⟩ 'w' = [['a'], ['b']]
    ∧ generate_password_from_pattern ⟨1, 1, ['a', 'b'], [['w']], []⟩ ['w'] =
        [['a'], ['b']]
    ∧ mainRun false false false false ['a', 'b'] [['w']] [] 1 1 1000000 =
        some [['a'], ['b']] := by
  refine ⟨?_, ?_, ?_⟩ <;> decide

/-- Claim C6 (amended): for every pattern position holding the token
`w`, if no word list was supplied (the word list is absent or empty) the
token silently falls back to the charset — it resolves exactly as an
unrecognised token does, and no failure is raised. -/
theorem claim6_fallback (g : PasswordGenerator) (hw : g.common_words = []) :
    resolveToken g 'w' = g.charset.map fun ch => [ch] := by
  unfold resolveToken
  rw [if_neg (by decide), if_neg (by decide), if_neg (by decide), if_neg (by decide),
    if_neg (by simp [hw])]

/-- Closed instantiation of `claim6_fallback` at a generator with
charset "x" and an empty word list. -/
theorem claim6_fallback_witness :
    resolveToken ⟨0, 0, ['x'], [['w']], []⟩ 'w' = [['x']] :=
  claim6_fallback ⟨0, 0, ['x'], [['w']], []⟩ rfl

end PassList
